import Mathlib

/-!
Shallow embedding of `latextools/tokenizer.py`: a TeX-style lexical tokenizer
that converts text into a stream of classified tokens under a per-character
category-code table.  Python strings are modelled as `List Char`, the mutable
scanner (`self.state`, `self.currline`, `self.currchar`) as explicit state
passing, and the unbounded `while` loops of `make_token` as fuel-indexed
recursion (`.outOfFuel` marks divergence of the Python loop); exceptions
(`raise Exception('invalid character')`, `IndexError`, `TypeError`) are
explicit result constructors.
-/

namespace LatexTools

/-- `CategoryCode` from the source: the sixteen input categories plus the two
token-only codes `ControlSequence` and `ParameterToken`. -/
inductive CategoryCode where
  | EscapeCharacter
  | BeginningOfGroup
  | EndOfGroup
  | MathShift
  | AlignmentTab
  | EndOfLine
  | ParameterCharacter
  | Superscript
  | Subscript
  | Ignored
  | Space
  | Letter
  | Other
  | Active
  | Comment
  | Invalid
  | ControlSequence
  | ParameterToken
deriving DecidableEq

/-- `State` from the source: the lexer state. -/
inductive State where
  | NewLine
  | SkippingSpaces
  | MiddleOfLine
deriving DecidableEq

/-- `Token = namedtuple('Token', 'value code')`. -/
structure Token where
  value : List Char
  code : CategoryCode
deriving DecidableEq

/-- `string.ascii_letters` membership. -/
def isAsciiLetter (c : Char) : Bool :=
  (97 ≤ c.toNat && c.toNat ≤ 122) || (65 ≤ c.toNat && c.toNat ≤ 90)

/-- The default catcode table built in `Tokenizer.__init__`: a `defaultdict`
with default `Other`, the explicit specials, and the ASCII letters. -/
def defaultCatcodes (c : Char) : CategoryCode :=
  if c = '\\' then .EscapeCharacter
  else if c = '{' then .BeginningOfGroup
  else if c = '}' then .EndOfGroup
  else if c = '$' then .MathShift
  else if c = '&' then .AlignmentTab
  else if c = Char.ofNat 13 then .EndOfLine
  else if c = '#' then .ParameterCharacter
  else if c = '^' then .Superscript
  else if c = '_' then .Subscript
  else if c = Char.ofNat 0 then .Ignored
  else if c = ' ' then .Space
  else if c = Char.ofNat 9 then .Space
  else if c = '~' then .Active
  else if c = '%' then .Comment
  else if c = Char.ofNat 127 then .Invalid
  else if isAsciiLetter c then .Letter
  else .Other

/-- Code points accepted by Python `str.isspace`, the whitespace stripped by
`str.strip()`/`str.rstrip()` (generated from the Unicode database CPython
uses). -/
def pyWS (c : Char) : Bool :=
  let n := c.toNat
  (9 ≤ n && n ≤ 13) || (28 ≤ n && n ≤ 32) || n == 133 || n == 160 ||
    n == 5760 || (8192 ≤ n && n ≤ 8202) || (8232 ≤ n && n ≤ 8233) ||
    n == 8239 || n == 8287 || n == 12288

/-- Line boundaries recognised by Python `str.splitlines`. -/
def isLineBreak (c : Char) : Bool :=
  c = Char.ofNat 10 || c = Char.ofNat 13 || c = Char.ofNat 11 ||
    c = Char.ofNat 12 || c = Char.ofNat 28 || c = Char.ofNat 29 ||
    c = Char.ofNat 30 || c = Char.ofNat 133 || c = Char.ofNat 8232 ||
    c = Char.ofNat 8233

/-- Worker for `splitlines`: `acc` is the (reversed) current line. -/
def splitlinesGo : List Char → List Char → List (List Char)
  | [], acc => if acc = [] then [] else [acc.reverse]
  | c :: rest, acc =>
    if c = Char.ofNat 13 then
      match rest with
      | c2 :: rest2 =>
        if c2 = Char.ofNat 10 then acc.reverse :: splitlinesGo rest2 []
        else acc.reverse :: splitlinesGo (c2 :: rest2) []
      | [] => [acc.reverse]
    else if isLineBreak c then acc.reverse :: splitlinesGo rest []
    else splitlinesGo rest (c :: acc)

/-- Python `str.splitlines`. -/
def splitlines (cs : List Char) : List (List Char) :=
  splitlinesGo cs []

/-- Python `str.rstrip()`. -/
def rstrip (cs : List Char) : List Char :=
  (cs.reverse.dropWhile pyWS).reverse

/-- Python `str.strip()`. -/
def strip (cs : List Char) : List Char :=
  rstrip (cs.dropWhile pyWS)

/-- The `lines` generator of the source applied to already-stripped text:
split into lines, right-strip each line, append the end-of-line character
when one is configured. -/
def linesOf (endl : Option Char) (text : List Char) : List (List Char) :=
  (splitlines text).map fun l =>
    match endl with
    | some e => rstrip l ++ [e]
    | none => rstrip l

/-- Code points accepted by Python `str.isdigit` (Numeric_Type Digit or
Decimal, generated from the Unicode database CPython uses); it includes the
Unicode digits such as the superscripts, beyond ASCII 0-9. -/
def isPyDigit (c : Char) : Bool :=
  let n := c.toNat
  (48 ≤ n && n ≤ 57) || (178 ≤ n && n ≤ 179) || n == 185 ||
    (1632 ≤ n && n ≤ 1641) || (1776 ≤ n && n ≤ 1785) ||
    (1984 ≤ n && n ≤ 1993) || (2406 ≤ n && n ≤ 2415) ||
    (2534 ≤ n && n ≤ 2543) || (2662 ≤ n && n ≤ 2671) ||
    (2790 ≤ n && n ≤ 2799) || (2918 ≤ n && n ≤ 2927) ||
    (3046 ≤ n && n ≤ 3055) || (3174 ≤ n && n ≤ 3183) ||
    (3302 ≤ n && n ≤ 3311) || (3430 ≤ n && n ≤ 3439) ||
    (3558 ≤ n && n ≤ 3567) || (3664 ≤ n && n ≤ 3673) ||
    (3792 ≤ n && n ≤ 3801) || (3872 ≤ n && n ≤ 3881) ||
    (4160 ≤ n && n ≤ 4169) || (4240 ≤ n && n ≤ 4249) ||
    (4969 ≤ n && n ≤ 4977) || (6112 ≤ n && n ≤ 6121) ||
    (6160 ≤ n && n ≤ 6169) || (6470 ≤ n && n ≤ 6479) ||
    (6608 ≤ n && n ≤ 6618) || (6784 ≤ n && n ≤ 6793) ||
    (6800 ≤ n && n ≤ 6809) || (6992 ≤ n && n ≤ 7001) ||
    (7088 ≤ n && n ≤ 7097) || (7232 ≤ n && n ≤ 7241) ||
    (7248 ≤ n && n ≤ 7257) || n == 8304 || (8308 ≤ n && n ≤ 8313) ||
    (8320 ≤ n && n ≤ 8329) || (9312 ≤ n && n ≤ 9320) ||
    (9332 ≤ n && n ≤ 9340) || (9352 ≤ n && n ≤ 9360) || n == 9450 ||
    (9461 ≤ n && n ≤ 9469) || n == 9471 || (10102 ≤ n && n ≤ 10110) ||
    (10112 ≤ n && n ≤ 10120) || (10122 ≤ n && n ≤ 10130) ||
    (42528 ≤ n && n ≤ 42537) || (43216 ≤ n && n ≤ 43225) ||
    (43264 ≤ n && n ≤ 43273) || (43472 ≤ n && n ≤ 43481) ||
    (43504 ≤ n && n ≤ 43513) || (43600 ≤ n && n ≤ 43609) ||
    (44016 ≤ n && n ≤ 44025) || (65296 ≤ n && n ≤ 65305) ||
    (66720 ≤ n && n ≤ 66729) || (68160 ≤ n && n ≤ 68163) ||
    (68912 ≤ n && n ≤ 68921) || (69216 ≤ n && n ≤ 69224) ||
    (69714 ≤ n && n ≤ 69722) || (69734 ≤ n && n ≤ 69743) ||
    (69872 ≤ n && n ≤ 69881) || (69942 ≤ n && n ≤ 69951) ||
    (70096 ≤ n && n ≤ 70105) || (70384 ≤ n && n ≤ 70393) ||
    (70736 ≤ n && n ≤ 70745) || (70864 ≤ n && n ≤ 70873) ||
    (71248 ≤ n && n ≤ 71257) || (71360 ≤ n && n ≤ 71369) ||
    (71472 ≤ n && n ≤ 71481) || (71904 ≤ n && n ≤ 71913) ||
    (72016 ≤ n && n ≤ 72025) || (72784 ≤ n && n ≤ 72793) ||
    (73040 ≤ n && n ≤ 73049) || (73120 ≤ n && n ≤ 73129) ||
    (92768 ≤ n && n ≤ 92777) || (92864 ≤ n && n ≤ 92873) ||
    (93008 ≤ n && n ≤ 93017) || (120782 ≤ n && n ≤ 120831) ||
    (123200 ≤ n && n ≤ 123209) || (123632 ≤ n && n ≤ 123641) ||
    (125264 ≤ n && n ≤ 125273) || (127232 ≤ n && n ≤ 127242) ||
    (130032 ≤ n && n ≤ 130041)

/-- One character of the regex `[0-9a-f]` used by the superscript decode. -/
def hexDigitLower (c : Char) : Bool :=
  (48 ≤ c.toNat && c.toNat ≤ 57) || (97 ≤ c.toNat && c.toNat ≤ 102)

/-- Value of one hex digit, as used by `int(enc, 16)`. -/
def hexVal (c : Char) : Nat :=
  if 48 ≤ c.toNat && c.toNat ≤ 57 then c.toNat - 48 else c.toNat - 87

/-- The control-word loop of `make_token`: consume the maximal run of
Letter-classified characters. -/
def takeLetterRun (cat : Char → CategoryCode) : List Char → List Char
  | [] => []
  | c :: rest => if cat c = .Letter then c :: takeLetterRun cat rest else []

/-- Mutable scanner fields of the tokenizer. -/
structure Scanner where
  state : State
  currline : Nat
  currchar : Nat
deriving DecidableEq

/-- Outcome of one call to `make_token`.  `outOfFuel` models divergence of
the Python `while` loops; `indexErr` the unguarded `line[self.currchar]`
read in the escape branch; `invalidErr` the raised invalid-character
exception. -/
inductive MakeResult where
  | tok : Token → Scanner → MakeResult
  | exhausted : Scanner → MakeResult
  | invalidErr : MakeResult
  | indexErr : MakeResult
  | outOfFuel : MakeResult
deriving DecidableEq

/-- `make_token` of the source, one fuel unit per loop iteration.  The final
recursive call (current line already exhausted without a line advance)
mirrors the Python outer `while` retesting an unchanged cursor: the loop
spins forever, so every fuel runs out. -/
def makeTokenAux (cat : Char → CategoryCode) (lines : List (List Char)) :
    Nat → State → Nat → Nat → MakeResult
  | 0, _, _, _ => .outOfFuel
  | fuel+1, st, l, c =>
    if l < lines.length then
      let line := lines.getD l []
      if c < line.length then
        let ch := line.getD c ' '
        let code := cat ch
        let c1 := c + 1
        match code with
        | .EscapeCharacter =>
          if c1 < line.length then
            let ch2 := line.getD c1 ' '
            let c2 := c1 + 1
            match cat ch2 with
            | .Letter =>
              let run := takeLetterRun cat (line.drop c2)
              .tok ⟨ch :: ch2 :: run, .ControlSequence⟩
                ⟨.SkippingSpaces, l, c2 + run.length⟩
            | .Space => .tok ⟨[ch, ch2], .ControlSequence⟩ ⟨.SkippingSpaces, l, c2⟩
            | _ => .tok ⟨[ch, ch2], .ControlSequence⟩ ⟨.MiddleOfLine, l, c2⟩
          else .indexErr
        | .EndOfLine =>
          match st with
          | .NewLine =>
            .tok ⟨['\\', 'p', 'a', 'r'], .ControlSequence⟩ ⟨.NewLine, l + 1, 0⟩
          | .SkippingSpaces => makeTokenAux cat lines fuel .NewLine (l + 1) 0
          | .MiddleOfLine => .tok ⟨[' '], .Space⟩ ⟨.NewLine, l + 1, 0⟩
        | .ParameterCharacter =>
          if c1 < line.length then
            let ch2 := line.getD c1 ' '
            if isPyDigit ch2 then
              .tok ⟨[ch, ch2], .ParameterToken⟩ ⟨.MiddleOfLine, l, c1 + 1⟩
            else if cat ch2 = .ParameterCharacter then
              .tok ⟨[ch], .ParameterCharacter⟩ ⟨.MiddleOfLine, l, c1 + 1⟩
            else .tok ⟨[ch], .ParameterCharacter⟩ ⟨.MiddleOfLine, l, c1⟩
          else .tok ⟨[ch], .ParameterCharacter⟩ ⟨.MiddleOfLine, l, c1⟩
        | .Superscript =>
          let chars := (line.drop c1).take 3
          if 1 < chars.length ∧ cat (chars.getD 0 ' ') = .Superscript then
            let enc := chars.drop 1
            if 2 ≤ enc.length ∧ hexDigitLower (enc.getD 0 ' ') ∧
                hexDigitLower (enc.getD 1 ' ') then
              let n := 16 * hexVal (enc.getD 0 ' ') + hexVal (enc.getD 1 ' ')
              if n < 256 then
                .tok ⟨[Char.ofNat n], cat (Char.ofNat n)⟩ ⟨.MiddleOfLine, l, c + 4⟩
              else
                let n2 := (enc.getD 0 ' ').toNat
                if n2 < 128 then
                  .tok ⟨[Char.ofNat ((n2 + 64) % 128)],
                      cat (Char.ofNat ((n2 + 64) % 128))⟩ ⟨.MiddleOfLine, l, c + 3⟩
                else .tok ⟨[ch], .Superscript⟩ ⟨.MiddleOfLine, l, c1⟩
            else .tok ⟨[ch], .Superscript⟩ ⟨.MiddleOfLine, l, c1⟩
          else .tok ⟨[ch], .Superscript⟩ ⟨.MiddleOfLine, l, c1⟩
        | .Ignored => makeTokenAux cat lines fuel st l c1
        | .Space =>
          if st = .MiddleOfLine then
            .tok ⟨[' '], .Space⟩ ⟨.SkippingSpaces, l, c1⟩
          else makeTokenAux cat lines fuel st l c1
        | .Comment => makeTokenAux cat lines fuel st (l + 1) 0
        | .Invalid => .invalidErr
        | _ => .tok ⟨[ch], code⟩ ⟨.MiddleOfLine, l, c1⟩
      else
        makeTokenAux cat lines fuel st l c
    else .exhausted ⟨st, l, c⟩

/-- Python exceptions that can escape the tokenizer. -/
inductive PyError where
  | typeError
  | indexError
  | invalidCharacter
deriving DecidableEq

/-- Outcome of pulling the whole stream (the `__iter__` loop). -/
inductive RunResult where
  | done : List Token → RunResult
  | errorAfter : List Token → PyError → RunResult
  | outOfFuel : RunResult
deriving DecidableEq

/-- Pull tokens with `make_token` until exhaustion, an error, or fuel out,
as the `__iter__`/`has_token`/`get_token` loop does. -/
def runAux (cat : Char → CategoryCode) (lines : List (List Char)) :
    Nat → State → Nat → Nat → RunResult
  | 0, _, _, _ => .outOfFuel
  | fuel+1, st, l, c =>
    match makeTokenAux cat lines (fuel + 1) st l c with
    | .tok t s =>
      match runAux cat lines fuel s.state s.currline s.currchar with
      | .done ts => .done (t :: ts)
      | .errorAfter ts e => .errorAfter (t :: ts) e
      | .outOfFuel => .outOfFuel
    | .exhausted _ => .done []
    | .invalidErr => .errorAfter [] .invalidCharacter
    | .indexErr => .errorAfter [] .indexError
    | .outOfFuel => .outOfFuel

/-- Whole pipeline with the default catcode table: normalize `text` as
`reset` does, then pull every token. -/
def tokenize (endl : Option Char) (text : List Char) (fuel : Nat) : RunResult :=
  runAux defaultCatcodes (linesOf endl (strip text)) fuel .NewLine 0 0

/-- The `Tokenizer` object.  `linesIsSet` records whether the instance
attribute `lines` has been assigned, shadowing the `lines` generator method
(the assignment `self.lines = list(self.lines())` in `reset`). -/
structure Tokenizer where
  catcodes : Char → CategoryCode
  endlinechar : Option Char
  lines : List (List Char)
  linesIsSet : Bool
  scanner : Scanner
  next_token : Option Token

/-- `Tokenizer.reset`.  When the `lines` attribute is already set, the call
`list(self.lines())` invokes the stored list instead of the generator method
and raises `TypeError`. -/
def Tokenizer.reset (tk : Tokenizer) (text : Option (List Char)) :
    Except PyError Tokenizer :=
  let tk0 := { tk with scanner := ⟨.NewLine, 0, 0⟩, next_token := none }
  match text with
  | none => .ok tk0
  | some t =>
    if tk0.linesIsSet then .error .typeError
    else .ok { tk0 with lines := linesOf tk0.endlinechar (strip t), linesIsSet := true }

/-- The object state built by `__init__` before its `reset(text)` call. -/
def Tokenizer.mkBase (endl : Option Char) : Tokenizer where
  catcodes := defaultCatcodes
  endlinechar := endl
  lines := []
  linesIsSet := false
  scanner := ⟨.NewLine, 0, 0⟩
  next_token := none

/-- `Tokenizer.__init__(text, endlinechar)`. -/
def Tokenizer.init (text : Option (List Char)) (endl : Option Char) :
    Except PyError Tokenizer :=
  (Tokenizer.mkBase endl).reset text

/-- `self.make_token()` on the object's own scanner fields. -/
def Tokenizer.makeToken (tk : Tokenizer) (fuel : Nat) : MakeResult :=
  makeTokenAux tk.catcodes tk.lines fuel tk.scanner.state tk.scanner.currline
    tk.scanner.currchar

/-- Result of `peek`/`get_token`: the returned optional token plus the
updated object, or a propagated exception, or divergence. -/
inductive PullResult where
  | ok : Option Token → Tokenizer → PullResult
  | err : PyError → PullResult
  | outOfFuel : PullResult

/-- `Tokenizer.peek`: fill the lookahead slot from `make_token` when empty,
return its content without consuming. -/
def Tokenizer.peek (tk : Tokenizer) (fuel : Nat) : PullResult :=
  match tk.next_token with
  | some t => .ok (some t) tk
  | none =>
    match tk.makeToken fuel with
    | .tok t s => .ok (some t) { tk with scanner := s, next_token := some t }
    | .exhausted s => .ok none { tk with scanner := s, next_token := none }
    | .invalidErr => .err .invalidCharacter
    | .indexErr => .err .indexError
    | .outOfFuel => .outOfFuel

/-- `Tokenizer.get_token`: return and clear the cached token when present,
else compute a fresh one. -/
def Tokenizer.get_token (tk : Tokenizer) (fuel : Nat) : PullResult :=
  match tk.next_token with
  | some t => .ok (some t) { tk with next_token := none }
  | none =>
    match tk.makeToken fuel with
    | .tok t s => .ok (some t) { tk with scanner := s }
    | .exhausted s => .ok none { tk with scanner := s }
    | .invalidErr => .err .invalidCharacter
    | .indexErr => .err .indexError
    | .outOfFuel => .outOfFuel

/-- Lines on which scanning with the default table can never run off the
end: the line is its right-stripped body plus a final carriage return, the
body contains neither a carriage return nor the delete character, and the
body does not end with a backslash. -/
def goodLine (line : List Char) : Bool :=
  decide (0 < line.length) &&
  decide (line.getD (line.length - 1) ' ' = Char.ofNat 13) &&
  (List.range (line.length - 1)).all
    (fun i => !decide (line.getD i ' ' = Char.ofNat 13) &&
      !decide (line.getD i ' ' = Char.ofNat 127)) &&
  (decide (line.length < 2) || !decide (line.getD (line.length - 2) ' ' = '\\'))

/-- Characters not yet consumed: the cursor's termination measure. -/
def remChars (lines : List (List Char)) (l c : Nat) : Nat :=
  ((lines.drop l).map List.length).sum - c

/-- Concrete one-line tokenizer used to instantiate the stream-protocol
theorem. -/
def tkW : Tokenizer where
  catcodes := defaultCatcodes
  endlinechar := some (Char.ofNat 13)
  lines := [['a', Char.ofNat 13]]
  linesIsSet := true
  scanner := ⟨.NewLine, 0, 0⟩
  next_token := none

/-- `tkW` after one fresh `peek`: cursor past `a`, token cached. -/
def tkW2 : Tokenizer :=
  { tkW with scanner := ⟨.MiddleOfLine, 0, 1⟩, next_token := some ⟨['a'], .Letter⟩ }

theorem getD_mem {l : List Char} {n : Nat} (h : n < l.length) (d : Char) :
    l.getD n d ∈ l := by
  rw [List.getD_eq_getElem?_getD, List.getElem?_eq_getElem h]
  exact List.getElem_mem ..

theorem getD_mem_lines {l : List (List Char)} {n : Nat} (h : n < l.length) :
    l.getD n [] ∈ l := by
  rw [List.getD_eq_getElem?_getD, List.getElem?_eq_getElem h]
  exact List.getElem_mem ..

theorem getD_drop (line : List Char) (n i : Nat) (d : Char) :
    (line.drop n).getD i d = line.getD (n + i) d := by
  rw [List.getD_eq_getElem?_getD, List.getD_eq_getElem?_getD, List.getElem?_drop]

theorem getD_take {line : List Char} {k i : Nat} (h : i < k) (d : Char) :
    (line.take k).getD i d = line.getD i d := by
  rw [List.getD_eq_getElem?_getD, List.getD_eq_getElem?_getD, List.getElem?_take]
  simp [h]

theorem remChars_eq {lines : List (List Char)} {l : Nat} (hl : l < lines.length)
    (c : Nat) :
    remChars lines l c =
      (lines.getD l []).length + remChars lines (l + 1) 0 - c := by
  unfold remChars
  rw [List.drop_eq_getElem_cons hl, List.map_cons, List.sum_cons,
    List.getD_eq_getElem?_getD, List.getElem?_eq_getElem hl]
  simp

theorem hexVal_lt_16 {c : Char} (h : hexDigitLower c = true) : hexVal c < 16 := by
  have h2 : (48 ≤ c.toNat ∧ c.toNat ≤ 57) ∨ (97 ≤ c.toNat ∧ c.toNat ≤ 102) := by
    simpa [hexDigitLower] using h
  unfold hexVal
  split <;> rename_i hcond <;>
    simp only [Bool.and_eq_true, decide_eq_true_eq] at hcond <;> omega

/-- C9: when a Comment-classified character is scanned, the cursor moves to
the next line at offset 0 with the lexer state unchanged and no token is
emitted (scanning simply continues there); and `"a%comment"` followed by a
line `"b"` yields the tokens for `a` and `b` with nothing synthesized
between them. -/
theorem comment_skips_line (cat : Char → CategoryCode) (lines : List (List Char))
    (fuel : Nat) (st : State) (l c : Nat)
    (hl : l < lines.length)
    (hc : c < (lines.getD l []).length)
    (hcat : cat ((lines.getD l []).getD c ' ') = .Comment) :
    makeTokenAux cat lines (fuel + 1) st l c = makeTokenAux cat lines fuel st (l + 1) 0 ∧
    tokenize (some (Char.ofNat 13))
        ['a', '%', 'c', 'o', 'm', 'm', 'e', 'n', 't', '\n', 'b'] 20 =
      .done [⟨['a'], .Letter⟩, ⟨['b'], .Letter⟩, ⟨[' '], .Space⟩] := by
  constructor
  · simp only [makeTokenAux, hl, hc, hcat, if_true, if_false]
  · decide

theorem comment_skips_line_witness :
    (0 < [['a', '%', Char.ofNat 13]].length ∧
      1 < ([['a', '%', Char.ofNat 13]].getD 0 []).length ∧
      defaultCatcodes (([['a', '%', Char.ofNat 13]].getD 0 []).getD 1 ' ') =
        .Comment) ∧
    makeTokenAux defaultCatcodes [['a', '%', Char.ofNat 13]] 6 .MiddleOfLine 0 1 =
      makeTokenAux defaultCatcodes [['a', '%', Char.ofNat 13]] 5 .MiddleOfLine 1 0 :=
  ⟨⟨by decide, by decide, by decide⟩,
    (comment_skips_line defaultCatcodes [['a', '%', Char.ofNat 13]] 5 .MiddleOfLine
      0 1 (by decide) (by decide) (by decide)).1⟩

/-- C4: scanning an EndOfLine-classified character advances the cursor to the
next line at offset 0 and always leaves the lexer in state NewLine; what is
emitted depends on the state before the event (NewLine: a `\par` control
sequence; SkippingSpaces: nothing, scanning continues on the next line;
MiddleOfLine: a space token); and a lone blank line inside `"a\n\nb"`
contributes exactly one `\par` token. -/
theorem endOfLine_dispatch (cat : Char → CategoryCode) (lines : List (List Char))
    (fuel : Nat) (l c : Nat)
    (hl : l < lines.length)
    (hc : c < (lines.getD l []).length)
    (hcat : cat ((lines.getD l []).getD c ' ') = .EndOfLine) :
    makeTokenAux cat lines (fuel + 1) .NewLine l c =
      .tok ⟨['\\', 'p', 'a', 'r'], .ControlSequence⟩ ⟨.NewLine, l + 1, 0⟩ ∧
    makeTokenAux cat lines (fuel + 1) .SkippingSpaces l c =
      makeTokenAux cat lines fuel .NewLine (l + 1) 0 ∧
    makeTokenAux cat lines (fuel + 1) .MiddleOfLine l c =
      .tok ⟨[' '], .Space⟩ ⟨.NewLine, l + 1, 0⟩ ∧
    tokenize (some (Char.ofNat 13)) ['a', '\n', '\n', 'b'] 20 =
      .done [⟨['a'], .Letter⟩, ⟨[' '], .Space⟩,
        ⟨['\\', 'p', 'a', 'r'], .ControlSequence⟩,
        ⟨['b'], .Letter⟩, ⟨[' '], .Space⟩] := by
  refine ⟨?_, ?_, ?_, by decide⟩ <;>
    simp only [makeTokenAux, hl, hc, hcat, if_true, if_false]

theorem endOfLine_dispatch_witness :
    (0 < [[Char.ofNat 13]].length ∧
      0 < ([[Char.ofNat 13]].getD 0 []).length ∧
      defaultCatcodes (([[Char.ofNat 13]].getD 0 []).getD 0 ' ') = .EndOfLine) ∧
    makeTokenAux defaultCatcodes [[Char.ofNat 13]] 6 .NewLine 0 0 =
      .tok ⟨['\\', 'p', 'a', 'r'], .ControlSequence⟩ ⟨.NewLine, 1, 0⟩ :=
  ⟨⟨by decide, by decide, by decide⟩,
    (endOfLine_dispatch defaultCatcodes [[Char.ofNat 13]] 5 0 0 (by decide)
      (by decide) (by decide)).1⟩

/-- C7: scanning a ParameterCharacter-classified character `ch` when a next
character `ch2` exists: a digit `ch2` is consumed giving the two-character
ParameterToken; a ParameterCharacter-classified non-digit `ch2` is consumed
and discarded giving the one-character ParameterCharacter token; any other
`ch2` is left unconsumed, again giving the one-character token.  The state
becomes MiddleOfLine in every case. -/
theorem parameter_dispatch (cat : Char → CategoryCode) (lines : List (List Char))
    (fuel : Nat) (st : State) (l c : Nat) (ch ch2 : Char)
    (hl : l < lines.length)
    (hc : c + 1 < (lines.getD l []).length)
    (hch : (lines.getD l []).getD c ' ' = ch)
    (hch2 : (lines.getD l []).getD (c + 1) ' ' = ch2)
    (hcat : cat ch = .ParameterCharacter) :
    (isPyDigit ch2 = true →
      makeTokenAux cat lines (fuel + 1) st l c =
        .tok ⟨[ch, ch2], .ParameterToken⟩ ⟨.MiddleOfLine, l, c + 2⟩) ∧
    (isPyDigit ch2 = false → cat ch2 = .ParameterCharacter →
      makeTokenAux cat lines (fuel + 1) st l c =
        .tok ⟨[ch], .ParameterCharacter⟩ ⟨.MiddleOfLine, l, c + 2⟩) ∧
    (isPyDigit ch2 = false → cat ch2 ≠ .ParameterCharacter →
      makeTokenAux cat lines (fuel + 1) st l c =
        .tok ⟨[ch], .ParameterCharacter⟩ ⟨.MiddleOfLine, l, c + 1⟩) := by
  have hc0 : c < (lines.getD l []).length := Nat.lt_of_succ_lt hc
  refine ⟨?_, ?_, ?_⟩
  · intro hd
    simp only [makeTokenAux, hl, hc0, hc, hch, hch2, hcat, hd, if_true, if_false]
  · intro hd hp
    simp only [makeTokenAux, hl, hc0, hc, hch, hch2, hcat, hd, hp,
      Bool.false_eq_true, if_true, if_false]
  · intro hd hp
    simp only [makeTokenAux, hl, hc0, hc, hch, hch2, hcat, hd, hp,
      Bool.false_eq_true, if_true, if_false]

theorem parameter_dispatch_witness :
    (0 < [['#', '1', Char.ofNat 13]].length ∧
      0 + 1 < ([['#', '1', Char.ofNat 13]].getD 0 []).length ∧
      ([['#', '1', Char.ofNat 13]].getD 0 []).getD 0 ' ' = '#' ∧
      ([['#', '1', Char.ofNat 13]].getD 0 []).getD (0 + 1) ' ' = '1' ∧
      defaultCatcodes '#' = .ParameterCharacter ∧ isPyDigit '1' = true) ∧
    makeTokenAux defaultCatcodes [['#', '1', Char.ofNat 13]] 6 .NewLine 0 0 =
      .tok ⟨['#', '1'], .ParameterToken⟩ ⟨.MiddleOfLine, 0, 0 + 2⟩ :=
  ⟨⟨by decide, by decide, by decide, by decide, by decide, by decide⟩,
    (parameter_dispatch defaultCatcodes [['#', '1', Char.ofNat 13]] 5 .NewLine 0 0
      '#' '1' (by decide) (by decide) (by decide) (by decide) (by decide)).1
      (by decide)⟩

/-- C2 counterexample: on input `"^^A"` the tokenizer emits a literal
`('^', Superscript)` token (twice), never decoding `chr((0x41+64) mod 128)`
and never processing a comment character. -/
theorem superscript_single_counterexample :
    tokenize (some (Char.ofNat 13)) ['^', '^', 'A'] 20 =
      .done [⟨['^'], .Superscript⟩, ⟨['^'], .Superscript⟩,
        ⟨['A'], .Letter⟩, ⟨[' '], .Space⟩] := by
  decide

/-- C2 amended: when a Superscript-classified character is scanned, the next
character is also Superscript-classified and exactly one character follows
it, no decoding happens: the scanned character itself is emitted with kind
Superscript and nothing extra is consumed.  The single-character offset
branch `chr((code+64) mod 128)` of the source is unreachable, because it is
guarded by a two-lowercase-hex-digit match whose value is always below
256. -/
theorem superscript_single_dispatch (cat : Char → CategoryCode)
    (lines : List (List Char)) (fuel : Nat) (st : State) (l c : Nat) (ch ch1 : Char)
    (hl : l < lines.length)
    (hlen : (lines.getD l []).length = c + 3)
    (hch : (lines.getD l []).getD c ' ' = ch)
    (hcat : cat ch = .Superscript)
    (hch1 : (lines.getD l []).getD (c + 1) ' ' = ch1)
    (hcat1 : cat ch1 = .Superscript) :
    makeTokenAux cat lines (fuel + 1) st l c =
      .tok ⟨[ch], .Superscript⟩ ⟨.MiddleOfLine, l, c + 1⟩ ∧
    ∀ d0 d1 : Char, hexDigitLower d0 = true → hexDigitLower d1 = true →
      16 * hexVal d0 + hexVal d1 < 256 := by
  constructor
  · have hc : c < (lines.getD l []).length := by omega
    have hchars0 : (((lines.getD l []).drop (c + 1)).take 3).getD 0 ' ' = ch1 := by
      rw [getD_take (by omega), getD_drop]
      exact hch1
    have hlen2 : (((lines.getD l []).drop (c + 1)).take 3).length = 2 := by
      simp only [List.length_take, List.length_drop, hlen]
      omega
    have h12 : (1 : Nat) < 2 := by omega
    have h21 : ¬((2 : Nat) ≤ 2 - 1) := by omega
    simp only [makeTokenAux, hl, hc, hch, hcat, hchars0, hcat1, hlen2,
      List.length_drop, h12, h21, if_true, if_false, and_true, true_and,
      false_and, and_false, if_neg, not_false_eq_true]
  · intro d0 d1 h0 h1
    have := hexVal_lt_16 h0
    have := hexVal_lt_16 h1
    omega

theorem superscript_single_dispatch_witness :
    (0 < [['a', '^', '^', 'A']].length ∧
      ([['a', '^', '^', 'A']].getD 0 []).length = 1 + 3 ∧
      ([['a', '^', '^', 'A']].getD 0 []).getD 1 ' ' = '^' ∧
      defaultCatcodes '^' = .Superscript ∧
      ([['a', '^', '^', 'A']].getD 0 []).getD (1 + 1) ' ' = '^') ∧
    makeTokenAux defaultCatcodes [['a', '^', '^', 'A']] 6 .MiddleOfLine 0 1 =
      .tok ⟨['^'], .Superscript⟩ ⟨.MiddleOfLine, 0, 1 + 1⟩ :=
  ⟨⟨by decide, by decide, by decide, by decide, by decide⟩,
    (superscript_single_dispatch defaultCatcodes [['a', '^', '^', 'A']] 5
      .MiddleOfLine 0 1 '^' '^' (by decide) (by decide) (by decide) (by decide)
      (by decide) (by decide)).1⟩

/-- C3 counterexample: `"^^25"` decodes to `%` but yields the token
`('%', Comment)` directly, while a literal `%` at that position yields no
token at all (the comment branch discards the line), so the decoded
character is not tokenized as if it had appeared literally. -/
theorem superscript_hex_counterexample :
    tokenize (some (Char.ofNat 13)) ['^', '^', '2', '5'] 20 =
      .done [⟨['%'], .Comment⟩, ⟨[' '], .Space⟩] ∧
    tokenize (some (Char.ofNat 13)) ['%'] 20 = .done [] := by
  constructor <;> decide

/-- C3 amended: when a Superscript-classified character is scanned, the next
character is also Superscript-classified and the two characters after it are
lowercase hex digits, the tokenizer consumes 3 extra characters and directly
returns the token `(chr(n), catcodes[chr(n)])` for the decoded byte `n`,
without re-dispatching the decoded character through the transition table;
for `"^^41"`, whose decoded character `A` is Letter-classified, this
coincides with the tokens of a literal `"A"`. -/
theorem superscript_hex_dispatch (cat : Char → CategoryCode)
    (lines : List (List Char)) (fuel : Nat) (st : State) (l c : Nat) (ch ch1 : Char)
    (hl : l < lines.length)
    (hlen : c + 4 ≤ (lines.getD l []).length)
    (hch : (lines.getD l []).getD c ' ' = ch)
    (hcat : cat ch = .Superscript)
    (hch1 : (lines.getD l []).getD (c + 1) ' ' = ch1)
    (hcat1 : cat ch1 = .Superscript)
    (hx0 : hexDigitLower ((lines.getD l []).getD (c + 2) ' ') = true)
    (hx1 : hexDigitLower ((lines.getD l []).getD (c + 3) ' ') = true) :
    makeTokenAux cat lines (fuel + 1) st l c =
      .tok ⟨[Char.ofNat (16 * hexVal ((lines.getD l []).getD (c + 2) ' ') +
              hexVal ((lines.getD l []).getD (c + 3) ' '))],
          cat (Char.ofNat (16 * hexVal ((lines.getD l []).getD (c + 2) ' ') +
              hexVal ((lines.getD l []).getD (c + 3) ' ')))⟩
        ⟨.MiddleOfLine, l, c + 4⟩ ∧
    tokenize (some (Char.ofNat 13)) ['^', '^', '4', '1'] 20 =
      tokenize (some (Char.ofNat 13)) ['A'] 20 := by
  constructor
  · have hc : c < (lines.getD l []).length := by omega
    have hchars0 : (((lines.getD l []).drop (c + 1)).take 3).getD 0 ' ' = ch1 := by
      rw [getD_take (by omega), getD_drop]
      exact hch1
    have henc0 : ((((lines.getD l []).drop (c + 1)).take 3).drop 1).getD 0 ' ' =
        (lines.getD l []).getD (c + 2) ' ' := by
      rw [getD_drop, getD_take (by omega), getD_drop]
    have henc1 : ((((lines.getD l []).drop (c + 1)).take 3).drop 1).getD 1 ' ' =
        (lines.getD l []).getD (c + 3) ' ' := by
      rw [getD_drop, getD_take (by omega), getD_drop]
    have hlen2 : (((lines.getD l []).drop (c + 1)).take 3).length = 3 := by
      simp only [List.length_take, List.length_drop]
      omega
    have h13 : (1 : Nat) < 3 := by omega
    have h23 : (2 : Nat) ≤ 3 - 1 := by omega
    have hn : 16 * hexVal ((lines.getD l []).getD (c + 2) ' ') +
        hexVal ((lines.getD l []).getD (c + 3) ' ') < 256 := by
      have := hexVal_lt_16 hx0
      have := hexVal_lt_16 hx1
      omega
    simp only [makeTokenAux, hl, hc, hch, hcat, hchars0, hcat1, hlen2,
      List.length_drop, henc0, henc1, hx0, hx1, hn, h13, h23, if_true, if_false,
      and_true, true_and, and_self]
  · decide

theorem superscript_hex_dispatch_witness :
    (0 < [['^', '^', '4', '1', Char.ofNat 13]].length ∧
      0 + 4 ≤ ([['^', '^', '4', '1', Char.ofNat 13]].getD 0 []).length ∧
      ([['^', '^', '4', '1', Char.ofNat 13]].getD 0 []).getD 0 ' ' = '^' ∧
      defaultCatcodes '^' = .Superscript ∧
      ([['^', '^', '4', '1', Char.ofNat 13]].getD 0 []).getD (0 + 1) ' ' = '^' ∧
      hexDigitLower
        (([['^', '^', '4', '1', Char.ofNat 13]].getD 0 []).getD (0 + 2) ' ') = true ∧
      hexDigitLower
        (([['^', '^', '4', '1', Char.ofNat 13]].getD 0 []).getD (0 + 3) ' ') = true) ∧
    makeTokenAux defaultCatcodes [['^', '^', '4', '1', Char.ofNat 13]] 6
        .NewLine 0 0 =
      .tok ⟨[Char.ofNat (16 * hexVal
            (([['^', '^', '4', '1', Char.ofNat 13]].getD 0 []).getD (0 + 2) ' ') +
            hexVal
            (([['^', '^', '4', '1', Char.ofNat 13]].getD 0 []).getD (0 + 3) ' '))],
          defaultCatcodes (Char.ofNat (16 * hexVal
            (([['^', '^', '4', '1', Char.ofNat 13]].getD 0 []).getD (0 + 2) ' ') +
            hexVal
            (([['^', '^', '4', '1', Char.ofNat 13]].getD 0 []).getD (0 + 3) ' ')))⟩
        ⟨.MiddleOfLine, 0, 0 + 4⟩ :=
  ⟨⟨by decide, by decide, by decide, by decide, by decide, by decide, by decide⟩,
    (superscript_hex_dispatch defaultCatcodes [['^', '^', '4', '1', Char.ofNat 13]]
      5 .NewLine 0 0 '^' '^' (by decide) (by decide) (by decide) (by decide)
      (by decide) (by decide) (by decide) (by decide)).1⟩

/-- C5: the first reset (from `__init__`) succeeds and eagerly computes the
normalized line sequence — whole text stripped, split on line boundaries,
lines right-trimmed, end-of-line character appended — with cursor (0,0),
state NewLine and empty lookahead; but a second reset with new text fails
with a `TypeError`, because the first reset's assignment
`self.lines = list(self.lines())` shadowed the `lines` generator method
with the computed list, which is not callable. -/
theorem reset_lines_shadowing :
    Tokenizer.init
        (some [' ', ' ', 'a', ' ', 'x', '\t', '\n', 'b', '\t', '\n', '\n', 'c',
          ' ', ' '])
        (some (Char.ofNat 13)) =
      .ok { catcodes := defaultCatcodes
            endlinechar := some (Char.ofNat 13)
            lines := [['a', ' ', 'x', Char.ofNat 13], ['b', Char.ofNat 13],
              [Char.ofNat 13], ['c', Char.ofNat 13]]
            linesIsSet := true
            scanner := ⟨.NewLine, 0, 0⟩
            next_token := none } ∧
    (Tokenizer.init (some ['a']) (some (Char.ofNat 13))).bind
        (fun tk => tk.reset (some ['b'])) =
      .error .typeError := by
  constructor <;> rfl

/-- C6: a successful `peek` caches its token, so a repeated `peek` returns
the identical token with the tokenizer unchanged, a following `get_token`
returns exactly that token and clears the lookahead slot, and `peek` then
`get_token` produces the same token and final state as `get_token` alone
from the original state. -/
theorem peek_protocol (tk : Tokenizer) (f1 f2 : Nat) (t : Token) (tk' : Tokenizer)
    (h : tk.peek f1 = .ok (some t) tk') :
    tk'.peek f2 = .ok (some t) tk' ∧
    tk'.get_token f2 = .ok (some t) { tk' with next_token := none } ∧
    tk.get_token f1 = .ok (some t) { tk' with next_token := none } := by
  unfold Tokenizer.peek at h
  cases hn : tk.next_token with
  | some u =>
    rw [hn] at h
    simp only [PullResult.ok.injEq, Option.some.injEq] at h
    obtain ⟨ht, htk⟩ := h
    subst ht htk
    refine ⟨?_, ?_, ?_⟩ <;> simp [Tokenizer.peek, Tokenizer.get_token, hn]
  | none =>
    rw [hn] at h
    cases hm : tk.makeToken f1 with
    | tok v s =>
      rw [hm] at h
      simp only [PullResult.ok.injEq, Option.some.injEq] at h
      obtain ⟨ht, htk⟩ := h
      subst ht htk
      refine ⟨?_, ?_, ?_⟩
      · simp [Tokenizer.peek]
      · simp [Tokenizer.get_token]
      · simp only [Tokenizer.get_token, hn, hm]
    | exhausted s =>
      rw [hm] at h
      simp at h
    | invalidErr =>
      rw [hm] at h
      exact (PullResult.noConfusion h)
    | indexErr =>
      rw [hm] at h
      exact (PullResult.noConfusion h)
    | outOfFuel =>
      rw [hm] at h
      exact (PullResult.noConfusion h)

theorem peek_protocol_witness :
    tkW2.peek 3 = .ok (some ⟨['a'], .Letter⟩) tkW2 ∧
    tkW2.get_token 3 = .ok (some ⟨['a'], .Letter⟩) { tkW2 with next_token := none } ∧
    tkW.get_token 3 = .ok (some ⟨['a'], .Letter⟩) { tkW2 with next_token := none } :=
  peek_protocol tkW 3 3 ⟨['a'], .Letter⟩ tkW2 (by rfl)

/-- C10: every token `make_token` ever returns, for any catcode table, line
sequence, fuel, state and cursor, has non-empty text. -/
theorem token_value_nonempty (cat : Char → CategoryCode)
    (lines : List (List Char)) :
    ∀ fuel st l c t s, makeTokenAux cat lines fuel st l c = .tok t s →
      0 < t.value.length := by
  intro fuel
  induction fuel with
  | zero =>
    intro st l c t s h
    exact MakeResult.noConfusion h
  | succ n ih =>
    intro st l c t s h
    simp only [makeTokenAux] at h
    repeat' split at h
    all_goals first
      | exact ih _ _ _ _ _ h
      | exact MakeResult.noConfusion h
      | (cases h; simp)

theorem token_value_nonempty_witness :
    makeTokenAux defaultCatcodes [['a', Char.ofNat 13]] 3 .NewLine 0 0 =
      .tok ⟨['a'], .Letter⟩ ⟨.MiddleOfLine, 0, 1⟩ ∧
    0 < (Token.mk ['a'] .Letter).value.length :=
  ⟨by decide,
    token_value_nonempty defaultCatcodes [['a', Char.ofNat 13]] 3 .NewLine 0 0
      ⟨['a'], .Letter⟩ ⟨.MiddleOfLine, 0, 1⟩ (by decide)⟩

/-- C8 counterexample: pulling a token can raise an error although no
Invalid-classified character is scanned: with the end-of-line character
disabled, input `"\"` (a single Escape-classified character, the last on its
line) raises an IndexError. -/
theorem error_iff_invalid_counterexample :
    tokenize none ['\\'] 10 = .errorAfter [] .indexError ∧
    defaultCatcodes '\\' = .EscapeCharacter := by
  constructor <;> decide

/-- C8 amended: the invalid-character exception is raised whenever the
character scanned at the cursor is Invalid-classified, and it is raised only
when some character of the line sequence is Invalid-classified; but an
IndexError (escape character last on a line) is a second, distinct error
path, so "error iff Invalid scanned" does not hold. -/
theorem invalid_error_characterization (cat : Char → CategoryCode)
    (lines : List (List Char)) :
    (∀ fuel st l c, l < lines.length → c < (lines.getD l []).length →
      cat ((lines.getD l []).getD c ' ') = .Invalid →
      makeTokenAux cat lines (fuel + 1) st l c = .invalidErr) ∧
    (∀ fuel st l c, makeTokenAux cat lines fuel st l c = .invalidErr →
      ∃ line ∈ lines, ∃ ch ∈ line, cat ch = .Invalid) := by
  constructor
  · intro fuel st l c hl hc hcat
    simp only [makeTokenAux, hl, hc, hcat, if_true]
  · intro fuel
    induction fuel with
    | zero =>
      intro st l c h
      exact MakeResult.noConfusion h
    | succ n ih =>
      intro st l c h
      simp only [makeTokenAux] at h
      repeat' split at h
      all_goals first
        | exact ih _ _ _ h
        | (rename_i hl hc cd hcat
           exact ⟨_, getD_mem_lines hl, _, getD_mem hc ' ', hcat⟩)
        | exact MakeResult.noConfusion h

theorem invalid_error_characterization_witness :
    (0 < [[Char.ofNat 127]].length ∧ 0 < ([[Char.ofNat 127]].getD 0 []).length ∧
      defaultCatcodes (([[Char.ofNat 127]].getD 0 []).getD 0 ' ') = .Invalid) ∧
    makeTokenAux defaultCatcodes [[Char.ofNat 127]] 4 .NewLine 0 0 = .invalidErr :=
  ⟨⟨by decide, by decide, by decide⟩,
    (invalid_error_characterization defaultCatcodes [[Char.ofNat 127]]).1 3
      .NewLine 0 0 (by decide) (by decide) (by decide)⟩

/-- C1 counterexample: termination without error fails for invalid-free
input under some end-of-line configurations: with the end-of-line character
disabled, input `"a\"` produces the token for `a` and then raises an
IndexError, although the input contains no Invalid-classified character. -/
theorem tokenize_error_counterexample :
    tokenize none ['a', '\\'] 12 =
      .errorAfter [⟨['a'], .Letter⟩] .indexError ∧
    defaultCatcodes 'a' = .Letter ∧ defaultCatcodes '\\' = .EscapeCharacter := by
  refine ⟨by decide, by decide, by decide⟩

theorem goodLine_spec {line : List Char} (h : goodLine line = true) :
    0 < line.length ∧
    line.getD (line.length - 1) ' ' = Char.ofNat 13 ∧
    (∀ i, i < line.length - 1 →
      line.getD i ' ' ≠ Char.ofNat 13 ∧ line.getD i ' ' ≠ Char.ofNat 127) ∧
    (2 ≤ line.length → line.getD (line.length - 2) ' ' ≠ '\\') := by
  unfold goodLine at h
  simp only [Bool.and_eq_true, Bool.or_eq_true, List.all_eq_true, List.mem_range,
    decide_eq_true_eq, Bool.not_eq_true', decide_eq_false_iff_not] at h
  obtain ⟨⟨⟨h1, h2⟩, h3⟩, h4⟩ := h
  refine ⟨h1, h2, fun i hi => h3 i hi, fun hlen => ?_⟩
  rcases h4 with h4 | h4
  · omega
  · exact h4

theorem defaultCatcodes_eq_escape {c : Char}
    (h : defaultCatcodes c = CategoryCode.EscapeCharacter) : c = '\\' := by
  by_cases h1 : c = '\\'
  · exact h1
  exfalso
  unfold defaultCatcodes at h
  rw [if_neg h1] at h
  by_cases h2 : c = '{'
  · rw [if_pos h2] at h
    exact CategoryCode.noConfusion h
  rw [if_neg h2] at h
  by_cases h3 : c = '}'
  · rw [if_pos h3] at h
    exact CategoryCode.noConfusion h
  rw [if_neg h3] at h
  by_cases h4 : c = '$'
  · rw [if_pos h4] at h
    exact CategoryCode.noConfusion h
  rw [if_neg h4] at h
  by_cases h5 : c = '&'
  · rw [if_pos h5] at h
    exact CategoryCode.noConfusion h
  rw [if_neg h5] at h
  by_cases h6 : c = Char.ofNat 13
  · rw [if_pos h6] at h
    exact CategoryCode.noConfusion h
  rw [if_neg h6] at h
  by_cases h7 : c = '#'
  · rw [if_pos h7] at h
    exact CategoryCode.noConfusion h
  rw [if_neg h7] at h
  by_cases h8 : c = '^'
  · rw [if_pos h8] at h
    exact CategoryCode.noConfusion h
  rw [if_neg h8] at h
  by_cases h9 : c = '_'
  · rw [if_pos h9] at h
    exact CategoryCode.noConfusion h
  rw [if_neg h9] at h
  by_cases h10 : c = Char.ofNat 0
  · rw [if_pos h10] at h
    exact CategoryCode.noConfusion h
  rw [if_neg h10] at h
  by_cases h11 : c = ' '
  · rw [if_pos h11] at h
    exact CategoryCode.noConfusion h
  rw [if_neg h11] at h
  by_cases h12 : c = Char.ofNat 9
  · rw [if_pos h12] at h
    exact CategoryCode.noConfusion h
  rw [if_neg h12] at h
  by_cases h13 : c = '~'
  · rw [if_pos h13] at h
    exact CategoryCode.noConfusion h
  rw [if_neg h13] at h
  by_cases h14 : c = '%'
  · rw [if_pos h14] at h
    exact CategoryCode.noConfusion h
  rw [if_neg h14] at h
  by_cases h15 : c = Char.ofNat 127
  · rw [if_pos h15] at h
    exact CategoryCode.noConfusion h
  rw [if_neg h15] at h
  by_cases h16 : isAsciiLetter c = true
  · rw [if_pos h16] at h
    exact CategoryCode.noConfusion h
  rw [if_neg h16] at h
  exact CategoryCode.noConfusion h

theorem defaultCatcodes_eq_invalid {c : Char}
    (h : defaultCatcodes c = CategoryCode.Invalid) : c = Char.ofNat 127 := by
  by_cases h1 : c = Char.ofNat 127
  · exact h1
  exfalso
  unfold defaultCatcodes at h
  by_cases h2 : c = '\\'
  · rw [if_pos h2] at h
    exact CategoryCode.noConfusion h
  rw [if_neg h2] at h
  by_cases h3 : c = '{'
  · rw [if_pos h3] at h
    exact CategoryCode.noConfusion h
  rw [if_neg h3] at h
  by_cases h4 : c = '}'
  · rw [if_pos h4] at h
    exact CategoryCode.noConfusion h
  rw [if_neg h4] at h
  by_cases h5 : c = '$'
  · rw [if_pos h5] at h
    exact CategoryCode.noConfusion h
  rw [if_neg h5] at h
  by_cases h6 : c = '&'
  · rw [if_pos h6] at h
    exact CategoryCode.noConfusion h
  rw [if_neg h6] at h
  by_cases h7 : c = Char.ofNat 13
  · rw [if_pos h7] at h
    exact CategoryCode.noConfusion h
  rw [if_neg h7] at h
  by_cases h8 : c = '#'
  · rw [if_pos h8] at h
    exact CategoryCode.noConfusion h
  rw [if_neg h8] at h
  by_cases h9 : c = '^'
  · rw [if_pos h9] at h
    exact CategoryCode.noConfusion h
  rw [if_neg h9] at h
  by_cases h10 : c = '_'
  · rw [if_pos h10] at h
    exact CategoryCode.noConfusion h
  rw [if_neg h10] at h
  by_cases h11 : c = Char.ofNat 0
  · rw [if_pos h11] at h
    exact CategoryCode.noConfusion h
  rw [if_neg h11] at h
  by_cases h12 : c = ' '
  · rw [if_pos h12] at h
    exact CategoryCode.noConfusion h
  rw [if_neg h12] at h
  by_cases h13 : c = Char.ofNat 9
  · rw [if_pos h13] at h
    exact CategoryCode.noConfusion h
  rw [if_neg h13] at h
  by_cases h14 : c = '~'
  · rw [if_pos h14] at h
    exact CategoryCode.noConfusion h
  rw [if_neg h14] at h
  by_cases h15 : c = '%'
  · rw [if_pos h15] at h
    exact CategoryCode.noConfusion h
  rw [if_neg h15] at h
  rw [if_neg h1] at h
  by_cases h16 : isAsciiLetter c = true
  · rw [if_pos h16] at h
    exact CategoryCode.noConfusion h
  rw [if_neg h16] at h
  exact CategoryCode.noConfusion h

theorem succ_lt_of_ne_cr {line : List Char}
    (hlast : line.getD (line.length - 1) ' ' = Char.ofNat 13) {c : Nat}
    (hc : c < line.length) (hne : line.getD c ' ' ≠ Char.ofNat 13) :
    c + 1 < line.length := by
  rcases Nat.lt_or_ge (c + 1) line.length with h | h
  · exact h
  · exfalso
    have hce : c = line.length - 1 := by omega
    rw [hce] at hne
    exact hne hlast

theorem mem_drop_getD {line : List Char} {n i : Nat} (h : n ≤ i)
    (hi : i < line.length) : line.getD i ' ' ∈ line.drop n := by
  have he : (line.drop n).getD (i - n) ' ' = line.getD i ' ' := by
    rw [getD_drop]
    congr 1
    omega
  rw [← he]
  refine getD_mem ?_ ' '
  rw [List.length_drop]
  omega

theorem takeLetterRun_length_lt (cat : Char → CategoryCode) :
    ∀ xs : List Char, (∃ x ∈ xs, cat x ≠ .Letter) →
      (takeLetterRun cat xs).length < xs.length := by
  intro xs
  induction xs with
  | nil => rintro ⟨x, hx, _⟩; exact absurd hx (List.not_mem_nil x)
  | cons a as ih =>
    rintro ⟨x, hx, hxc⟩
    unfold takeLetterRun
    split
    · rename_i ha
      rcases List.mem_cons.mp hx with he | hm
      · exact absurd ha (he ▸ hxc)
      · have := ih ⟨x, hm, hxc⟩
        simp only [List.length_cons]
        omega
    · simp

theorem remChars_lt_same {lines : List (List Char)} {l c c' : Nat}
    (hl : l < lines.length) (hcc : c < c')
    (hle : c' ≤ (lines.getD l []).length) :
    remChars lines l c' < remChars lines l c := by
  have h1 := remChars_eq hl c
  have h2 := remChars_eq hl c'
  omega

theorem remChars_lt_next {lines : List (List Char)} {l c : Nat}
    (hl : l < lines.length) (hc : c < (lines.getD l []).length) :
    remChars lines (l + 1) 0 < remChars lines l c := by
  have h1 := remChars_eq hl c
  omega

/-- One `make_token` call from a well-placed cursor on good lines returns a
token (at a well-placed cursor with smaller measure) or exhaustion: it never
raises, and never exhausts its fuel when given `measure + 1` fuel. -/
theorem makeToken_step (lines : List (List Char))
    (hg : ∀ line ∈ lines, goodLine line = true) :
    ∀ n st l c, remChars lines l c ≤ n →
      (l < lines.length → c < (lines.getD l []).length) →
      (∃ s, makeTokenAux defaultCatcodes lines (n + 1) st l c = .exhausted s) ∨
      (∃ t st2 l2 c2,
        makeTokenAux defaultCatcodes lines (n + 1) st l c = .tok t ⟨st2, l2, c2⟩ ∧
        (l2 < lines.length → c2 < (lines.getD l2 []).length) ∧
        remChars lines l2 c2 < remChars lines l c) := by
  intro n
  induction n using Nat.strong_induction_on with
  | _ n ih =>
    intro st l c hrem hinv
    by_cases hl : l < lines.length
    case neg =>
      refine Or.inl ⟨⟨st, l, c⟩, ?_⟩
      simp only [makeTokenAux, hl, if_false]
    have hc : c < (lines.getD l []).length := hinv hl
    obtain ⟨hpos, hlast, hbody, hnb⟩ := goodLine_spec (hg _ (getD_mem_lines hl))
    have hnext : ∀ l', l' < lines.length → 0 < (lines.getD l' []).length :=
      fun l' hl' => (goodLine_spec (hg _ (getD_mem_lines hl'))).1
    have hrempos : 0 < remChars lines l c := by
      have := remChars_eq hl c
      omega
    have hrec : ∀ st' l' c', remChars lines l' c' < remChars lines l c →
        (l' < lines.length → c' < (lines.getD l' []).length) →
        (∃ s, makeTokenAux defaultCatcodes lines n st' l' c' = .exhausted s) ∨
        (∃ t st2 l2 c2,
          makeTokenAux defaultCatcodes lines n st' l' c' = .tok t ⟨st2, l2, c2⟩ ∧
          (l2 < lines.length → c2 < (lines.getD l2 []).length) ∧
          remChars lines l2 c2 < remChars lines l c) := by
      intro st' l' c' hlt hinv2
      have hn1 : 1 ≤ n := by omega
      have hres := ih (n - 1) (by omega) st' l' c' (by omega) hinv2
      rw [show n - 1 + 1 = n from by omega] at hres
      rcases hres with ⟨s, hs⟩ | ⟨t, st2, l2, c2, hs, hi, hr⟩
      · exact Or.inl ⟨s, hs⟩
      · exact Or.inr ⟨t, st2, l2, c2, hs, hi, lt_trans hr hlt⟩
    have hcr : ∀ i, i < (lines.getD l []).length →
        (lines.getD l []).getD i ' ' = Char.ofNat 13 →
        i = (lines.getD l []).length - 1 := by
      intro i hi he
      by_contra hne
      exact (hbody i (by omega)).1 he
    cases hcat : defaultCatcodes ((lines.getD l []).getD c ' ')
    · have hne : (lines.getD l []).getD c ' ' ≠ Char.ofNat 13 := by
        intro he
        rw [he] at hcat
        exact absurd hcat (by decide)
      have hc1 : c + 1 < (lines.getD l []).length := succ_lt_of_ne_cr hlast hc hne
      have hch2ne : (lines.getD l []).getD (c + 1) ' ' ≠ Char.ofNat 13 := by
        intro he
        have h1 : c + 1 = (lines.getD l []).length - 1 := hcr (c + 1) hc1 he
        have h2 : 2 ≤ (lines.getD l []).length := by omega
        have h3 : (lines.getD l []).getD ((lines.getD l []).length - 2) ' ' = '\\' := by
          rw [show (lines.getD l []).length - 2 = c from by omega]
          exact defaultCatcodes_eq_escape hcat
        exact hnb h2 h3
      have hc2 : c + 1 + 1 < (lines.getD l []).length :=
        succ_lt_of_ne_cr hlast hc1 hch2ne
      have hdl : ((lines.getD l []).drop (c + 1 + 1)).length =
          (lines.getD l []).length - (c + 1 + 1) := List.length_drop ..
      have hcrmem : (lines.getD l []).getD ((lines.getD l []).length - 1) ' ' ∈
          (lines.getD l []).drop (c + 1 + 1) :=
        mem_drop_getD (by omega) (by omega)
      have hrunlt :
          (takeLetterRun defaultCatcodes ((lines.getD l []).drop (c + 1 + 1))).length <
            ((lines.getD l []).drop (c + 1 + 1)).length :=
        takeLetterRun_length_lt _ _ ⟨_, hcrmem, by rw [hlast]; decide⟩
      cases hcat2 : defaultCatcodes ((lines.getD l []).getD (c + 1) ' ') <;>
        [skip; skip; skip; skip; skip; skip; skip; skip; skip; skip; skip; skip;
          skip; skip; skip; skip; skip; skip] <;>
        simp only [makeTokenAux, hl, hc, hcat, hc1, hcat2, if_true] <;>
        exact Or.inr ⟨_, _, _, _, rfl, fun _ => by omega,
          remChars_lt_same hl (by omega) (by omega)⟩
    · have hne : (lines.getD l []).getD c ' ' ≠ Char.ofNat 13 := by
        intro he
        rw [he] at hcat
        exact absurd hcat (by decide)
      have hc1 : c + 1 < (lines.getD l []).length := succ_lt_of_ne_cr hlast hc hne
      simp only [makeTokenAux, hl, hc, hcat, if_true]
      exact Or.inr ⟨_, _, _, _, rfl, fun _ => hc1,
        remChars_lt_same hl (by omega) (by omega)⟩
    · have hne : (lines.getD l []).getD c ' ' ≠ Char.ofNat 13 := by
        intro he
        rw [he] at hcat
        exact absurd hcat (by decide)
      have hc1 : c + 1 < (lines.getD l []).length := succ_lt_of_ne_cr hlast hc hne
      simp only [makeTokenAux, hl, hc, hcat, if_true]
      exact Or.inr ⟨_, _, _, _, rfl, fun _ => hc1,
        remChars_lt_same hl (by omega) (by omega)⟩
    · have hne : (lines.getD l []).getD c ' ' ≠ Char.ofNat 13 := by
        intro he
        rw [he] at hcat
        exact absurd hcat (by decide)
      have hc1 : c + 1 < (lines.getD l []).length := succ_lt_of_ne_cr hlast hc hne
      simp only [makeTokenAux, hl, hc, hcat, if_true]
      exact Or.inr ⟨_, _, _, _, rfl, fun _ => hc1,
        remChars_lt_same hl (by omega) (by omega)⟩
    · have hne : (lines.getD l []).getD c ' ' ≠ Char.ofNat 13 := by
        intro he
        rw [he] at hcat
        exact absurd hcat (by decide)
      have hc1 : c + 1 < (lines.getD l []).length := succ_lt_of_ne_cr hlast hc hne
      simp only [makeTokenAux, hl, hc, hcat, if_true]
      exact Or.inr ⟨_, _, _, _, rfl, fun _ => hc1,
        remChars_lt_same hl (by omega) (by omega)⟩
    · cases st with
      | NewLine =>
        simp only [makeTokenAux, hl, hc, hcat, if_true]
        exact Or.inr ⟨_, _, _, _, rfl, fun h1 => hnext _ h1, remChars_lt_next hl hc⟩
      | SkippingSpaces =>
        rcases hrec .NewLine (l + 1) 0 (remChars_lt_next hl hc)
            (fun h1 => hnext _ h1) with ⟨s, hs⟩ | ⟨t, st2, l2, c2, hs, hi, hr⟩
        · refine Or.inl ⟨s, ?_⟩
          simp only [makeTokenAux, hl, hc, hcat, if_true]
          exact hs
        · refine Or.inr ⟨t, st2, l2, c2, ?_, hi, hr⟩
          simp only [makeTokenAux, hl, hc, hcat, if_true]
          exact hs
      | MiddleOfLine =>
        simp only [makeTokenAux, hl, hc, hcat, if_true]
        exact Or.inr ⟨_, _, _, _, rfl, fun h1 => hnext _ h1, remChars_lt_next hl hc⟩
    · have hne : (lines.getD l []).getD c ' ' ≠ Char.ofNat 13 := by
        intro he
        rw [he] at hcat
        exact absurd hcat (by decide)
      have hc1 : c + 1 < (lines.getD l []).length := succ_lt_of_ne_cr hlast hc hne
      by_cases hd : isPyDigit ((lines.getD l []).getD (c + 1) ' ') = true
      · have hne2 : (lines.getD l []).getD (c + 1) ' ' ≠ Char.ofNat 13 := by
          intro he
          rw [he] at hd
          exact absurd hd (by decide)
        have hc2 : c + 1 + 1 < (lines.getD l []).length :=
          succ_lt_of_ne_cr hlast hc1 hne2
        simp only [makeTokenAux, hl, hc, hcat, hc1, hd, if_true]
        exact Or.inr ⟨_, _, _, _, rfl, fun _ => by omega,
          remChars_lt_same hl (by omega) (by omega)⟩
      · rw [Bool.not_eq_true] at hd
        by_cases hp : defaultCatcodes ((lines.getD l []).getD (c + 1) ' ') =
            CategoryCode.ParameterCharacter
        · have hne2 : (lines.getD l []).getD (c + 1) ' ' ≠ Char.ofNat 13 := by
            intro he
            rw [he] at hp
            exact absurd hp (by decide)
          have hc2 : c + 1 + 1 < (lines.getD l []).length :=
            succ_lt_of_ne_cr hlast hc1 hne2
          simp only [makeTokenAux, hl, hc, hcat, hc1, hd, hp, Bool.false_eq_true,
            if_true, if_false]
          exact Or.inr ⟨_, _, _, _, rfl, fun _ => by omega,
            remChars_lt_same hl (by omega) (by omega)⟩
        · simp only [makeTokenAux, hl, hc, hcat, hc1, hd, hp, Bool.false_eq_true,
            if_true, if_false]
          exact Or.inr ⟨_, _, _, _, rfl, fun _ => by omega,
            remChars_lt_same hl (by omega) (by omega)⟩
    · have hne : (lines.getD l []).getD c ' ' ≠ Char.ofNat 13 := by
        intro he
        rw [he] at hcat
        exact absurd hcat (by decide)
      have hc1 : c + 1 < (lines.getD l []).length := succ_lt_of_ne_cr hlast hc hne
      by_cases hdec : 1 < (((lines.getD l []).drop (c + 1)).take 3).length ∧
          defaultCatcodes ((((lines.getD l []).drop (c + 1)).take 3).getD 0 ' ') =
            CategoryCode.Superscript
      · by_cases hhex : 2 ≤ ((((lines.getD l []).drop (c + 1)).take 3).drop 1).length ∧
            hexDigitLower
              (((((lines.getD l []).drop (c + 1)).take 3).drop 1).getD 0 ' ') = true ∧
            hexDigitLower
              (((((lines.getD l []).drop (c + 1)).take 3).drop 1).getD 1 ' ') = true
        · have hctl : (((lines.getD l []).drop (c + 1)).take 3).length =
              min 3 ((lines.getD l []).length - (c + 1)) := by
            rw [List.length_take, List.length_drop]
          have henclen : ((((lines.getD l []).drop (c + 1)).take 3).drop 1).length =
              (((lines.getD l []).drop (c + 1)).take 3).length - 1 :=
            List.length_drop ..
          have hlen4 : c + 4 ≤ (lines.getD l []).length := by
            have h1 := hhex.1
            omega
          have henc1 : ((((lines.getD l []).drop (c + 1)).take 3).drop 1).getD 1 ' ' =
              (lines.getD l []).getD (c + 3) ' ' := by
            rw [getD_drop, getD_take (by omega), getD_drop]
          have hx1 : hexDigitLower ((lines.getD l []).getD (c + 3) ' ') = true := by
            rw [← henc1]
            exact hhex.2.2
          have hne3 : (lines.getD l []).getD (c + 3) ' ' ≠ Char.ofNat 13 := by
            intro he
            rw [he] at hx1
            exact absurd hx1 (by decide)
          have hc4 : c + 3 + 1 < (lines.getD l []).length :=
            succ_lt_of_ne_cr hlast (by omega) hne3
          have hn : 16 * hexVal
                (((((lines.getD l []).drop (c + 1)).take 3).drop 1).getD 0 ' ') +
              hexVal
                (((((lines.getD l []).drop (c + 1)).take 3).drop 1).getD 1 ' ') <
                256 := by
            have hv0 := hexVal_lt_16 hhex.2.1
            have hv1 := hexVal_lt_16 hhex.2.2
            omega
          simp only [makeTokenAux, hl, hc, hcat, hdec, hhex, hn, if_true, and_self,
            and_true, true_and]
          exact Or.inr ⟨_, _, _, _, rfl, fun _ => by omega,
            remChars_lt_same hl (by omega) (by omega)⟩
        · simp only [makeTokenAux, hl, hc, hcat, hdec, hhex, if_true, if_false,
            and_self, and_true, true_and]
          exact Or.inr ⟨_, _, _, _, rfl, fun _ => by omega,
            remChars_lt_same hl (by omega) (by omega)⟩
      · simp only [makeTokenAux, hl, hc, hcat, hdec, if_true, if_false]
        exact Or.inr ⟨_, _, _, _, rfl, fun _ => by omega,
          remChars_lt_same hl (by omega) (by omega)⟩
    · have hne : (lines.getD l []).getD c ' ' ≠ Char.ofNat 13 := by
        intro he
        rw [he] at hcat
        exact absurd hcat (by decide)
      have hc1 : c + 1 < (lines.getD l []).length := succ_lt_of_ne_cr hlast hc hne
      simp only [makeTokenAux, hl, hc, hcat, if_true]
      exact Or.inr ⟨_, _, _, _, rfl, fun _ => hc1,
        remChars_lt_same hl (by omega) (by omega)⟩
    · have hne : (lines.getD l []).getD c ' ' ≠ Char.ofNat 13 := by
        intro he
        rw [he] at hcat
        exact absurd hcat (by decide)
      have hc1 : c + 1 < (lines.getD l []).length := succ_lt_of_ne_cr hlast hc hne
      rcases hrec st l (c + 1) (remChars_lt_same hl (by omega) (by omega))
          (fun _ => hc1) with ⟨s, hs⟩ | ⟨t, st2, l2, c2, hs, hi, hr⟩
      · refine Or.inl ⟨s, ?_⟩
        simp only [makeTokenAux, hl, hc, hcat, if_true]
        exact hs
      · refine Or.inr ⟨t, st2, l2, c2, ?_, hi, hr⟩
        simp only [makeTokenAux, hl, hc, hcat, if_true]
        exact hs
    · have hne : (lines.getD l []).getD c ' ' ≠ Char.ofNat 13 := by
        intro he
        rw [he] at hcat
        exact absurd hcat (by decide)
      have hc1 : c + 1 < (lines.getD l []).length := succ_lt_of_ne_cr hlast hc hne
      by_cases hst : st = State.MiddleOfLine
      · simp only [makeTokenAux, hl, hc, hcat, hst, if_true]
        exact Or.inr ⟨_, _, _, _, rfl, fun _ => hc1,
          remChars_lt_same hl (by omega) (by omega)⟩
      · rcases hrec st l (c + 1) (remChars_lt_same hl (by omega) (by omega))
            (fun _ => hc1) with ⟨s, hs⟩ | ⟨t, st2, l2, c2, hs, hi, hr⟩
        · refine Or.inl ⟨s, ?_⟩
          simp only [makeTokenAux, hl, hc, hcat, hst, if_true, if_false]
          exact hs
        · refine Or.inr ⟨t, st2, l2, c2, ?_, hi, hr⟩
          simp only [makeTokenAux, hl, hc, hcat, hst, if_true, if_false]
          exact hs
    · have hne : (lines.getD l []).getD c ' ' ≠ Char.ofNat 13 := by
        intro he
        rw [he] at hcat
        exact absurd hcat (by decide)
      have hc1 : c + 1 < (lines.getD l []).length := succ_lt_of_ne_cr hlast hc hne
      simp only [makeTokenAux, hl, hc, hcat, if_true]
      exact Or.inr ⟨_, _, _, _, rfl, fun _ => hc1,
        remChars_lt_same hl (by omega) (by omega)⟩
    · have hne : (lines.getD l []).getD c ' ' ≠ Char.ofNat 13 := by
        intro he
        rw [he] at hcat
        exact absurd hcat (by decide)
      have hc1 : c + 1 < (lines.getD l []).length := succ_lt_of_ne_cr hlast hc hne
      simp only [makeTokenAux, hl, hc, hcat, if_true]
      exact Or.inr ⟨_, _, _, _, rfl, fun _ => hc1,
        remChars_lt_same hl (by omega) (by omega)⟩
    · have hne : (lines.getD l []).getD c ' ' ≠ Char.ofNat 13 := by
        intro he
        rw [he] at hcat
        exact absurd hcat (by decide)
      have hc1 : c + 1 < (lines.getD l []).length := succ_lt_of_ne_cr hlast hc hne
      simp only [makeTokenAux, hl, hc, hcat, if_true]
      exact Or.inr ⟨_, _, _, _, rfl, fun _ => hc1,
        remChars_lt_same hl (by omega) (by omega)⟩
    · rcases hrec st (l + 1) 0 (remChars_lt_next hl hc)
          (fun h1 => hnext _ h1) with ⟨s, hs⟩ | ⟨t, st2, l2, c2, hs, hi, hr⟩
      · refine Or.inl ⟨s, ?_⟩
        simp only [makeTokenAux, hl, hc, hcat, if_true]
        exact hs
      · refine Or.inr ⟨t, st2, l2, c2, ?_, hi, hr⟩
        simp only [makeTokenAux, hl, hc, hcat, if_true]
        exact hs
    · exfalso
      have hne : (lines.getD l []).getD c ' ' ≠ Char.ofNat 13 := by
        intro he
        rw [he] at hcat
        exact absurd hcat (by decide)
      have hclt : c < (lines.getD l []).length - 1 := by
        rcases Nat.lt_or_ge c ((lines.getD l []).length - 1) with h | h
        · exact h
        · exfalso
          apply hne
          rw [show c = (lines.getD l []).length - 1 from by omega]
          exact hlast
      exact (hbody c hclt).2 (defaultCatcodes_eq_invalid hcat)
    · have hne : (lines.getD l []).getD c ' ' ≠ Char.ofNat 13 := by
        intro he
        rw [he] at hcat
        exact absurd hcat (by decide)
      have hc1 : c + 1 < (lines.getD l []).length := succ_lt_of_ne_cr hlast hc hne
      simp only [makeTokenAux, hl, hc, hcat, if_true]
      exact Or.inr ⟨_, _, _, _, rfl, fun _ => hc1,
        remChars_lt_same hl (by omega) (by omega)⟩
    · have hne : (lines.getD l []).getD c ' ' ≠ Char.ofNat 13 := by
        intro he
        rw [he] at hcat
        exact absurd hcat (by decide)
      have hc1 : c + 1 < (lines.getD l []).length := succ_lt_of_ne_cr hlast hc hne
      simp only [makeTokenAux, hl, hc, hcat, if_true]
      exact Or.inr ⟨_, _, _, _, rfl, fun _ => hc1,
        remChars_lt_same hl (by omega) (by omega)⟩

/-- Pulling every token terminates with `done` on good lines. -/
theorem run_total (lines : List (List Char))
    (hg : ∀ line ∈ lines, goodLine line = true) :
    ∀ n st l c, remChars lines l c ≤ n →
      (l < lines.length → c < (lines.getD l []).length) →
      ∃ toks, runAux defaultCatcodes lines (n + 1) st l c = .done toks := by
  intro n
  induction n using Nat.strong_induction_on with
  | _ n ih =>
    intro st l c hrem hinv
    rcases makeToken_step lines hg n st l c hrem hinv with
      ⟨s, hs⟩ | ⟨t, st2, l2, c2, hs, hi, hr⟩
    · refine ⟨[], ?_⟩
      simp only [runAux, hs]
    · have hn1 : 1 ≤ n := by omega
      obtain ⟨toks, htoks⟩ := ih (n - 1) (by omega) st2 l2 c2 (by omega) hi
      rw [show n - 1 + 1 = n from by omega] at htoks
      refine ⟨t :: toks, ?_⟩
      simp only [runAux, hs, htoks]

/-- C1 amended: with the default classification table and the default
end-of-line character (carriage return), tokenization of any text whose
normalized lines are all good — each line is its body plus the appended
carriage return, with no Invalid character (delete) in the body and no body
ending with the escape character backslash — terminates: pulling tokens
reaches exhaustion after a finite token sequence, raising no error.  (The
backslash restriction is forced by the IndexError counterexample, and
dropping the default-configuration restriction is impossible: with the
end-of-line character disabled even `"ab"` makes the scanning loop spin
forever once the line is exhausted.) -/
theorem tokenize_terminates (text : List Char)
    (hg : ∀ line ∈ linesOf (some (Char.ofNat 13)) (strip text),
      goodLine line = true) :
    ∃ fuel toks, tokenize (some (Char.ofNat 13)) text fuel = .done toks := by
  refine ⟨remChars (linesOf (some (Char.ofNat 13)) (strip text)) 0 0 + 1, ?_⟩
  unfold tokenize
  exact run_total _ hg _ .NewLine 0 0 (Nat.le_refl _)
    (fun h0 => (goodLine_spec (hg _ (getD_mem_lines h0))).1)

theorem tokenize_terminates_witness :
    ((linesOf (some (Char.ofNat 13))
      (strip ['a', 'b', ' ', '\n', 'c', '%', 'x', '\n', '\n', '#', '1'])).all
        goodLine = true) ∧
    ∃ fuel toks, tokenize (some (Char.ofNat 13))
        ['a', 'b', ' ', '\n', 'c', '%', 'x', '\n', '\n', '#', '1'] fuel =
      .done toks :=
  ⟨by decide,
    tokenize_terminates ['a', 'b', ' ', '\n', 'c', '%', 'x', '\n', '\n', '#', '1']
      (by decide)⟩

end LatexTools
